import Mathlib

/-!
# MAFW equalizer control-panel plugin (`src/equalizer/mafw-equalizer.c`)

A shallow embedding of the configuration-store and preset logic of the plugin.

Conventions of the embedding:

* C strings (`gchar *`, `xmlChar *`) are lists of characters.
* `gdouble` values are rationals: every finite double is a rational, and the
  code only compares gains, prints them with `%.1f` and reads them with `atof`.
  The read of the store by `get_band_value` is also given over doubles with
  the infinities and NaN (`get_band_value_ieee`), since the store can hold them.
* `gint` values are integers.
* The constants of `constants.h` (`GCONF_MAFW_GST_EQ_RENDERER`, `EQ_GAIN_MIN`,
  `EQ_GAIN_MAX`) are parameters `ns`, `lo`, `hi` of the functions that use them.
-/

namespace MafwEqualizer

/-- Number of equalizer bands: `#define NUM_BANDS 10`. -/
abbrev NUM_BANDS : Nat := 10

/-- The GLib macro `CLAMP(x, low, high)`:
`(((x) > (high)) ? (high) : (((x) < (low)) ? (low) : (x)))`. -/
def CLAMP (x low high : ℚ) : ℚ :=
  if x > high then high else if x < low then low else x

/-! ## Characters and decimal digits -/

/-- The C-locale `isspace`. -/
def isspace (c : Char) : Bool :=
  c = ' ' || c = '\t' || c = '\n' || c = '\x0b' || c = '\x0c' || c = '\r'

/-- The C-locale `isdigit`. -/
def isdigit (c : Char) : Bool :=
  decide ('0'.toNat ≤ c.toNat ∧ c.toNat ≤ '9'.toNat)

/-- The character of a decimal digit `d < 10`. -/
def digit_char (d : Nat) : Char := Char.ofNat ('0'.toNat + d % 10)

/-- The value of a decimal digit character. -/
def digit_val (c : Char) : Nat := c.toNat - '0'.toNat

/-- Value of a string of decimal digits, most significant first. -/
def digits_val (cs : List Char) : Nat :=
  cs.foldl (fun acc c => acc * 10 + digit_val c) 0

/-- Decimal digits of `n`, most significant first; `fuel` bounds the number
of digits and `n + 1` always suffices. -/
def utoa_go : Nat → Nat → List Char
  | 0, _ => []
  | fuel + 1, n =>
    if n < 10 then [digit_char n] else utoa_go fuel (n / 10) ++ [digit_char (n % 10)]

/-- Decimal representation of a natural number, as `%u` prints it. -/
def utoa (n : Nat) : List Char := utoa_go (n + 1) n

/-- What `g_strdup_printf("%d", i)` produces. -/
def printf_d (i : Int) : List Char :=
  if i < 0 then '-' :: utoa i.natAbs else utoa i.natAbs

/-- The key `g_strdup_printf("%s%d", GCONF_MAFW_GST_EQ_RENDERER "/band", band)`. -/
def band_key (ns : List Char) (band : Int) : List Char :=
  ns ++ "/band".toList ++ printf_d band

/-! ## The GConf client -/

/-- A value held by the configuration store. Only the float case matters to
the plugin; `gconf_client_get_float` and `gconf_value_get_float` answer `0.0`
for a value of another type. -/
inductive GConfValue where
  | float (v : ℚ)
  | int (n : Int)
  | string (s : List Char)
  deriving DecidableEq, Repr

/-- State of the configuration side of the process.

* `confclient`: whether the static `GConfClient *confclient` is non-NULL;
* `entries`: the database as a log of writes, most recent first, so that a
  lookup sees the latest write of a key;
* `reads`: the keys looked up so far, most recent first. -/
structure GConf where
  confclient : Bool
  entries : List (List Char × GConfValue)
  reads : List (List Char)
  deriving DecidableEq, Repr

/-- The lazy initialisation that opens every function touching GConf:
`if (!confclient) confclient = gconf_client_get_default();`. -/
def ensure_client (g : GConf) : GConf :=
  { g with confclient := true }

/-- Model of `gconf_client_get_float(confclient, key, NULL)`: the float
stored at `key`, `0.0` when the key is unset or holds a value of another type.
The lookup is recorded in `reads`. -/
def gconf_client_get_float (g : GConf) (key : List Char) : ℚ × GConf :=
  let g1 := { g with reads := key :: g.reads }
  match g.entries.lookup key with
  | some (GConfValue.float v) => (v, g1)
  | _ => (0, g1)

/-- Model of `gconf_client_set_float(confclient, key, value, NULL)`. -/
def gconf_client_set_float (g : GConf) (key : List Char) (value : ℚ) : GConf :=
  { g with entries := (key, GConfValue.float value) :: g.entries }

/-- Source: `get_band_value` (lines 73-90). The `g_return_val_if_fail` guard
returns `0` before anything else happens when `band` is out of range. -/
def get_band_value (lo hi : ℚ) (ns : List Char) (band : Int) (g : GConf) : ℚ × GConf :=
  if ¬ (band ≥ 0 ∧ band < NUM_BANDS) then (0, g)
  else
    let g1 := ensure_client g
    let key := band_key ns band
    let r := gconf_client_get_float g1 key
    (CLAMP r.1 lo hi, r.2)

/-- Source: `update_band_cb` (lines 93-109). `value` is what
`gtk_range_get_value(range)` returns for the slider that changed, `band` the
integer carried by the user-data pointer. -/
def update_band_cb (ns : List Char) (value : ℚ) (band : Int) (g : GConf) : GConf :=
  let g1 := ensure_client g
  let key := band_key ns band
  gconf_client_set_float g1 key value

/-! ## Scanning numbers: `sscanf` with `%d`, and `atof` -/

/-- Literal part of a `sscanf` format: every format character must be the next
input character. The format here is `GCONF_MAFW_GST_EQ_RENDERER "/band"`, a
GConf path, which holds neither white space nor `%`. -/
def match_literal : List Char → List Char → Option (List Char)
  | [], s => some s
  | _ :: _, [] => none
  | c :: fmt, d :: s => if c = d then match_literal fmt s else none

/-- An optional sign in front of a number: whether it is `-`, and the rest. -/
def scan_sign : List Char → Bool × List Char
  | '-' :: r => (true, r)
  | '+' :: r => (false, r)
  | s => (false, s)

/-- Largest `gint`. -/
def G_MAXINT : Int := 2147483647

/-- Smallest `gint`. -/
def G_MININT : Int := -2147483648

/-- Conversion of a scanned number to `int` as glibc does it on the 32-bit
target of the plugin: `strtol` saturates at the ends of the range. -/
def to_gint (z : Int) : Int :=
  if z > G_MAXINT then G_MAXINT else if z < G_MININT then G_MININT else z

/-- The `%d` directive of `sscanf`: white space is skipped, then an optional
sign and at least one decimal digit are read. `none` when no digit is found,
in which case nothing is stored through the argument pointer. -/
def scan_d (s : List Char) : Option Int :=
  let s1 := s.dropWhile isspace
  let sg := scan_sign s1
  let ds := sg.2.takeWhile isdigit
  if ds = [] then none
  else some (to_gint (if sg.1 then -(digits_val ds : Int) else (digits_val ds : Int)))

/-- Model of `sscanf (key, GCONF_MAFW_GST_EQ_RENDERER "/band%d", &band_number)`:
the integer stored in `band_number`, or `none` when the input does not match
and `band_number` is left as it was. -/
def sscanf_band (ns key : List Char) : Option Int :=
  match match_literal (ns ++ "/band".toList) key with
  | none => none
  | some rest => scan_d rest

/-- The exponent part of a decimal floating constant: `e` or `E`, an optional
sign and at least one digit; `0` when there is none. -/
def scan_exponent : List Char → Int
  | c :: r =>
    if c = 'e' ∨ c = 'E' then
      let sg := scan_sign r
      let ds := sg.2.takeWhile isdigit
      if sg.1 then -(digits_val ds : Int) else (digits_val ds : Int)
    else 0
  | [] => 0

/-- Model of `atof` (that is `strtod (s, NULL)`) in the C locale, for decimal
input: white space, an optional sign, digits with an optional `.` and more
digits, an optional exponent. The result is `0` when no digit is found.
Hexadecimal constants, `inf` and `nan` are not modelled. -/
def atof (s : List Char) : ℚ :=
  let s1 := s.dropWhile isspace
  let sg := scan_sign s1
  let ip := sg.2.takeWhile isdigit
  let s3 := sg.2.dropWhile isdigit
  let fp := match s3 with
    | '.' :: r => r.takeWhile isdigit
    | _ => []
  let s4 := match s3 with
    | '.' :: r => r.dropWhile isdigit
    | _ => s3
  let e : Int := if ip = [] ∧ fp = [] then 0 else scan_exponent s4
  let m : ℚ := (digits_val (ip ++ fp) : ℚ) / (10 : ℚ) ^ fp.length * (10 : ℚ) ^ e
  if sg.1 then -m else m

/-! ## Printing gains: `%.1f` -/

/-- Rounding of a non-negative rational to the nearest integer, ties to the
even one, as glibc rounds the exact value of a double when printing. -/
def round_half_even (q : ℚ) : Int :=
  let f := ⌊q⌋
  if q - f < 1 / 2 then f
  else if q - f > 1 / 2 then f + 1
  else if f % 2 = 0 then f else f + 1

/-- What `g_strdup_printf("%.1f", x)` produces in the C locale: sign, integer
digits, a point and one digit. -/
def printf_1f (x : ℚ) : List Char :=
  let t := (round_half_even (|x| * 10)).toNat
  (if x < 0 then ['-'] else []) ++ utoa (t / 10) ++ ['.', digit_char (t % 10)]

/-- The value `x` rounded to one decimal place (nearest, ties to even). -/
def round1 (x : ℚ) : ℚ :=
  if x < 0 then -((round_half_even (|x| * 10) : ℚ) / 10)
  else (round_half_even (|x| * 10) : ℚ) / 10

/-! ## The libxml2 document tree -/

/-- The node kinds of libxml2 that can occur below an element. -/
inductive xmlElementType where
  | XML_ELEMENT_NODE
  | XML_TEXT_NODE
  | XML_CDATA_SECTION_NODE
  | XML_PI_NODE
  | XML_COMMENT_NODE
  deriving DecidableEq, Repr

/-- The fields of `struct _xmlNode` the plugin depends on: the node kind, its
name, its attributes in document order (name and value), its children and its
own text. -/
inductive xmlNode where
  | mk (type : xmlElementType) (name : List Char)
      (properties : List (List Char × List Char)) (children : List xmlNode)
      (content : List Char)
  deriving Repr

namespace xmlNode

/-- Field `type`. -/
def type : xmlNode → xmlElementType
  | mk t _ _ _ _ => t

/-- Field `name`. -/
def name : xmlNode → List Char
  | mk _ n _ _ _ => n

/-- Field `properties`. -/
def properties : xmlNode → List (List Char × List Char)
  | mk _ _ p _ _ => p

/-- Field `children`. -/
def children : xmlNode → List xmlNode
  | mk _ _ _ c _ => c

/-- Field `content`. -/
def content : xmlNode → List Char
  | mk _ _ _ _ c => c

end xmlNode

mutual
/-- Decidable equality of nodes. -/
def xmlNode.decEq : (a b : xmlNode) → Decidable (a = b)
  | .mk t n p c x, .mk t2 n2 p2 c2 x2 =>
    if ht : t = t2 then
      if hn : n = n2 then
        if hp : p = p2 then
          if hx : x = x2 then
            match xmlNode.decEqList c c2 with
            | isTrue hc => isTrue (by rw [ht, hn, hp, hx, hc])
            | isFalse hc => isFalse (fun h => hc (by cases h; rfl))
          else isFalse (fun h => hx (by cases h; rfl))
        else isFalse (fun h => hp (by cases h; rfl))
      else isFalse (fun h => hn (by cases h; rfl))
    else isFalse (fun h => ht (by cases h; rfl))
/-- Decidable equality of lists of nodes. -/
def xmlNode.decEqList : (a b : List xmlNode) → Decidable (a = b)
  | [], [] => isTrue rfl
  | [], _ :: _ => isFalse (fun h => by cases h)
  | _ :: _, [] => isFalse (fun h => by cases h)
  | a :: l, b :: l2 =>
    match xmlNode.decEq a b with
    | isTrue hab =>
      match xmlNode.decEqList l l2 with
      | isTrue hl => isTrue (by rw [hab, hl])
      | isFalse hl => isFalse (fun h => hl (by cases h; rfl))
    | isFalse hab => isFalse (fun h => hab (by cases h; rfl))
end

instance : DecidableEq xmlNode := xmlNode.decEq

/-- The fields of `struct _xmlDoc` the plugin depends on: `name`, which the
plugin uses for the preset name, and the root element (`none` for the empty
document of `xmlNewDoc`). -/
structure xmlDoc where
  name : List Char
  root : Option xmlNode
  deriving DecidableEq, Repr

mutual
/-- Text gathered from a node of the subtree of an element: the content of a
text or CDATA node, then whatever its children give. -/
def subtree_text : xmlNode → List Char
  | .mk t _ _ cs x =>
    (if t = xmlElementType.XML_TEXT_NODE ∨ t = xmlElementType.XML_CDATA_SECTION_NODE
      then x else []) ++ subtree_text_list cs
/-- Text gathered from a list of sibling nodes, in document order. -/
def subtree_text_list : List xmlNode → List Char
  | [] => []
  | n :: rest => subtree_text n ++ subtree_text_list rest
end

/-- Model of `xmlNodeGetContent`: for an element the text of all text and
CDATA descendants, for the other node kinds the node's own content. -/
def xmlNodeGetContent (n : xmlNode) : List Char :=
  match n.type with
  | xmlElementType.XML_ELEMENT_NODE => subtree_text_list n.children
  | _ => n.content

/-- Model of `xmlGetProp`: the value of the first attribute called `name`;
`none` (NULL) when there is none or the node is not an element. -/
def xmlGetProp (n : xmlNode) (name : List Char) : Option (List Char) :=
  if n.type = xmlElementType.XML_ELEMENT_NODE then n.properties.lookup name else none

/-- Model of `xmlNewDocNode (doc, NULL, name, content)`: a new element whose
only child is a text node holding `content`, or no child for empty content.
Entity references in `content` are not modelled. -/
def xmlNewDocNode (name content : List Char) : xmlNode :=
  .mk xmlElementType.XML_ELEMENT_NODE name []
    (if content = [] then []
      else [.mk xmlElementType.XML_TEXT_NODE "text".toList [] [] content]) []

/-- Replace the value of the first attribute called `name`, or add the
attribute after the existing ones. -/
def set_property (name value : List Char) :
    List (List Char × List Char) → List (List Char × List Char)
  | [] => [(name, value)]
  | (k, v) :: rest =>
    if k = name then (k, value) :: rest else (k, v) :: set_property name value rest

/-- Model of `xmlSetProp (node, name, value)`. -/
def xmlSetProp (n : xmlNode) (name value : List Char) : xmlNode :=
  match n with
  | .mk t nm p c x =>
    if t = xmlElementType.XML_ELEMENT_NODE then .mk t nm (set_property name value p) c x
    else .mk t nm p c x

/-- Linking of a new node after the last child of `parent`, the effect
`xmlNewChild` has on the parent. -/
def xmlAddChild (parent child : xmlNode) : xmlNode :=
  match parent with
  | .mk t nm p c x => .mk t nm p (c ++ [child]) x

/-- The macro `#define XML_NODE_BAND "band"`. -/
def XML_NODE_BAND : List Char := "band".toList

/-- The macro `#define XML_NODE_EQUALIZER "equalizer"`. -/
def XML_NODE_EQUALIZER : List Char := "equalizer".toList

/-- The macro `#define XML_PROP_BAND_NUMBER "num"`. -/
def XML_PROP_BAND_NUMBER : List Char := "num".toList

/-- The macro `#define PRESETS_PATH "/home/user/.presets"`. -/
def PRESETS_PATH : List Char := "/home/user/.presets".toList

/-! ## Presets: loading and saving -/

/-- The `while (current_node)` loop of `preset_load` over the children of the
root element, in document order. -/
def preset_load_nodes (ns : List Char) : List xmlNode → GConf → GConf
  | [], g => g
  | current_node :: next, g =>
    if current_node.name = XML_NODE_BAND then
      match xmlGetProp current_node XML_PROP_BAND_NUMBER with
      | some band_number =>
        let key := ns ++ "/band".toList ++ band_number
        let value := atof (xmlNodeGetContent current_node)
        preset_load_nodes ns next (gconf_client_set_float g key value)
      | none => preset_load_nodes ns next g
    else preset_load_nodes ns next g

/-- Source: `preset_load` (lines 194-233). The argument is `none` for a NULL
pointer, which `g_return_if_fail` turns into a no-op. The result is `none` when
the document has no root element: `root_node->children` then dereferences
NULL. -/
def preset_load (ns : List Char) (preset : Option xmlDoc) (g : GConf) : Option GConf :=
  match preset with
  | none => some g
  | some doc =>
    let g1 := ensure_client g
    match doc.root with
    | none => none
    | some root_node => some (preset_load_nodes ns root_node.children g1)

/-- The array `GtkWidget *slider_band[NUM_BANDS]`, each slider reduced to the
value of its range. -/
abbrev Sliders := Fin NUM_BANDS → ℚ

/-- Body of the `for` loop of `preset_save` for band `i`: the new `band`
child, with its text and its `num` attribute, linked below the root. -/
def preset_save_band (slider_band : Sliders) (root_node : xmlNode) (i : Fin NUM_BANDS) :
    xmlNode :=
  let gain := printf_1f (slider_band i)
  let band_number := printf_d (i.val : Int)
  let child_node := xmlNewDocNode XML_NODE_BAND gain
  xmlAddChild root_node (xmlSetProp child_node XML_PROP_BAND_NUMBER band_number)

/-- Source: `preset_save` (lines 235-267). Returns the populated document and
the file name handed to `xmlSaveFile`. -/
def preset_save (preset : xmlDoc) (slider_band : Sliders) : xmlDoc × List Char :=
  let root_node := xmlNewDocNode XML_NODE_EQUALIZER []
  let filled := (List.finRange NUM_BANDS).foldl (preset_save_band slider_band) root_node
  let preset_fullname := PRESETS_PATH ++ "/".toList ++ preset.name
  ({ preset with root := some filled }, preset_fullname)

/-! ## Sliders and change notifications -/

/-- A change notification of GConf: the key and its new value (`none` when the
key was unset). -/
structure GConfEntry where
  key : List Char
  value : Option GConfValue
  deriving DecidableEq, Repr

/-- Model of `gconf_value_get_float`: `0.0` for a value that is not a float. -/
def gconf_value_get_float : GConfValue → ℚ
  | GConfValue.float v => v
  | _ => 0

/-- The open dialog: the ten sliders and the configuration client. -/
structure Dialog where
  slider_band : Sliders
  gconf : GConf

/-- Model of `gtk_range_set_value` on slider `i`, whose adjustment has the
bounds `lo` and `hi`: the value is clamped to the adjustment, and only when it
differs from the current one is it stored and `value-changed` emitted, which
runs `update_band_cb` for that slider. (`update_label_cb` also runs; it only
rewrites the label text, which is not part of the model.) -/
def gtk_range_set_value (lo hi : ℚ) (ns : List Char) (d : Dialog) (i : Fin NUM_BANDS)
    (value : ℚ) : Dialog :=
  let v := CLAMP value lo hi
  if v = d.slider_band i then d
  else
    { slider_band := Function.update d.slider_band i v
      gconf := update_band_cb ns v (i.val : Int) d.gconf }

/-- Source: `update_slider_cb` (lines 124-146). `garbage` is the value the
uninitialised local `band_number` happens to hold; it is what the test sees
when `sscanf` stores nothing. The result is `none` when `slider_band` is
indexed outside its ten elements. -/
def update_slider_cb (lo hi : ℚ) (ns : List Char) (garbage : Int) (entry : GConfEntry)
    (d : Dialog) : Option Dialog :=
  let band_number : Int :=
    match sscanf_band ns entry.key with
    | some n => n
    | none => garbage
  if hlt : band_number < NUM_BANDS then
    let gain : ℚ :=
      match entry.value with
      | some value => CLAMP (gconf_value_get_float value) (-24) 12
      | none => 0
    if h : 0 ≤ band_number then
      some (gtk_range_set_value lo hi ns d ⟨band_number.toNat, by unfold NUM_BANDS at *; omega⟩ gain)
    else none
  else some d

/-! ## Listing the presets -/

/-- Inner walk of the merge of `g_list_sort`: `a :: l1` is the first list,
`merge_l1` merges its tail with a second list, the argument is the second
list. -/
def g_list_sort_merge_aux {α : Type} (compare_func : α → α → Int) (a : α) (l1 : List α)
    (merge_l1 : List α → List α) : List α → List α
  | [] => a :: l1
  | b :: l2 =>
    if compare_func a b ≤ 0 then a :: merge_l1 (b :: l2)
    else b :: g_list_sort_merge_aux compare_func a l1 merge_l1 l2

/-- Model of `g_list_sort_merge` of GLib: the head of the first list is taken
while `compare_func` is at most `0`, the head of the second otherwise. -/
def g_list_sort_merge {α : Type} (compare_func : α → α → Int) : List α → List α → List α
  | [] => fun l2 => l2
  | a :: l1 => g_list_sort_merge_aux compare_func a l1 (g_list_sort_merge compare_func l1)

/-- Model of `g_list_sort_real` of GLib: lists of at most one element are
returned as they are, longer ones are cut in two halves, which are sorted and
merged. `fuel` bounds the depth of the recursion. -/
def g_list_sort_real {α : Type} (compare_func : α → α → Int) : Nat → List α → List α
  | 0, list => list
  | fuel + 1, list =>
    match list with
    | [] => []
    | [a] => [a]
    | a :: b :: rest =>
      let l := a :: b :: rest
      g_list_sort_merge compare_func
        (g_list_sort_real compare_func fuel (l.take (l.length / 2)))
        (g_list_sort_real compare_func fuel (l.drop (l.length / 2)))

/-- Model of `g_list_sort`; the length of the list is enough fuel. -/
def g_list_sort {α : Type} (list : List α) (compare_func : α → α → Int) : List α :=
  g_list_sort_real compare_func list.length list

/-- Source: `sort_xmldoc` (lines 148-155); `collate` stands for
`g_utf8_collate`, whose order depends on the locale. -/
def sort_xmldoc (collate : List Char → List Char → Int) (a b : xmlDoc) : Int :=
  collate a.name b.name

/-- The `while` loop of `presets_preload_all` over the names that
`g_dir_read_name` yields; `xmlReadFile` gives the parsed document of a path,
`none` when the file does not parse. -/
def presets_preload_loop (xmlReadFile : List Char → Option xmlDoc) :
    List (List Char) → List xmlDoc → List xmlDoc
  | [], preset_list => preset_list
  | preset_name :: more, preset_list =>
    let preset_fullname := PRESETS_PATH ++ "/".toList ++ preset_name
    match xmlReadFile preset_fullname with
    | some preset_xml =>
      presets_preload_loop xmlReadFile more ({ preset_xml with name := preset_name } :: preset_list)
    | none => presets_preload_loop xmlReadFile more preset_list

/-- Source: `presets_preload_all` (lines 157-192). `dir` is what `g_dir_open`
finds: `none` when it fails and sets `error`, otherwise the names in the
directory. A `GList *` is NULL exactly when the list is empty. -/
def presets_preload_all (collate : List Char → List Char → Int)
    (xmlReadFile : List Char → Option xmlDoc) (dir : Option (List (List Char))) :
    List xmlDoc :=
  match dir with
  | none => []
  | some names =>
    let preset_list := presets_preload_loop xmlReadFile names []
    if preset_list ≠ [] then g_list_sort preset_list (sort_xmldoc collate)
    else preset_list

/-! ## Choosing a preset -/

/-- The GTK response `GTK_RESPONSE_DELETE_EVENT`, given when the picker is
closed without a choice. -/
def GTK_RESPONSE_DELETE_EVENT : Int := -4

/-- The loop `Check the selected xmlDoc, freeing remaining` of
`dialog_choose_preset`: `preset_selected` becomes each preset whose name
collates equal to the selected name, so the last such preset stays. -/
def choose_selected (collate : List Char → List Char → Int)
    (preset_name_selected : Option (List Char)) : List xmlDoc → Option xmlDoc → Option xmlDoc
  | [], preset_selected => preset_selected
  | preset :: node, preset_selected =>
    match preset_name_selected with
    | some nm =>
      if collate preset.name nm = 0 then
        choose_selected collate preset_name_selected node (some preset)
      else choose_selected collate preset_name_selected node preset_selected
    | none => choose_selected collate preset_name_selected node preset_selected

/-- Source: `dialog_choose_preset` (lines 299-391). `allow_new` is `none` for a
NULL pointer, otherwise the boolean it points to. `response` is what
`gtk_dialog_run` returns for the picker and `current_text` what
`hildon_touch_selector_get_current_text` returns. The result is the returned
document (`none` for NULL) and the final content of `allow_new`. -/
def dialog_choose_preset (collate : List Char → List Char → Int)
    (xmlReadFile : List Char → Option xmlDoc) (dir : Option (List (List Char)))
    (allow_new : Option Bool) (response : Int) (current_text : Option (List Char)) :
    Option xmlDoc × Option Bool :=
  let presets := presets_preload_all collate xmlReadFile dir
  if presets = [] ∧ allow_new = none then (none, allow_new)
  else
    let preset_name_selected :=
      if response ≠ GTK_RESPONSE_DELETE_EVENT then current_text else none
    let preset_selected := choose_selected collate preset_name_selected presets none
    match preset_name_selected with
    | some nm =>
      if allow_new = some true then
        match preset_selected with
        | some p => (some p, some false)
        | none => (some { name := nm, root := none }, some true)
      else (preset_selected, allow_new)
    | none => (preset_selected, allow_new)

/-! ## Reading the store with doubles that are not finite

A float of the store is an IEEE double: an external writer can leave an
infinity or NaN there. The read path of `get_band_value` is given once more
over such values, with the comparisons of C. On floats that are finite it is
the model above. -/

/-- A `gdouble` as the store can hold it: a finite value, an infinity or NaN. -/
inductive gdouble where
  | finite (q : ℚ)
  | pos_inf
  | neg_inf
  | nan
  deriving DecidableEq, Repr

namespace gdouble

/-- The C comparison `x < y`; it is false as soon as one side is NaN. -/
def lt : gdouble → gdouble → Bool
  | finite a, finite b => decide (a < b)
  | finite _, pos_inf => true
  | neg_inf, finite _ => true
  | neg_inf, pos_inf => true
  | _, _ => false

/-- The C comparison `x > y`. -/
def gt (x y : gdouble) : Bool := lt y x

end gdouble

/-- The GLib macro `CLAMP(x, low, high)` on doubles:
`(((x) > (high)) ? (high) : (((x) < (low)) ? (low) : (x)))`. -/
def CLAMP_ieee (x low high : gdouble) : gdouble :=
  if gdouble.gt x high then high else if gdouble.lt x low then low else x

/-- A value held by the configuration store, its float being any double. -/
inductive GConfValue_ieee where
  | float (v : gdouble)
  | int (n : Int)
  | string (s : List Char)
  deriving DecidableEq, Repr

/-- State of the configuration side of the process, as `GConf`, with floats
that may be infinite or NaN. -/
structure GConf_ieee where
  confclient : Bool
  entries : List (List Char × GConfValue_ieee)
  reads : List (List Char)
  deriving DecidableEq, Repr

/-- The lazy initialisation `if (!confclient) confclient = gconf_client_get_default();`. -/
def ensure_client_ieee (g : GConf_ieee) : GConf_ieee :=
  { g with confclient := true }

/-- Model of `gconf_client_get_float(confclient, key, NULL)` on a store of
doubles: the float stored at `key`, `0.0` when the key is unset or holds a
value of another type. The lookup is recorded in `reads`. -/
def gconf_client_get_float_ieee (g : GConf_ieee) (key : List Char) : gdouble × GConf_ieee :=
  let g1 := { g with reads := key :: g.reads }
  match g.entries.lookup key with
  | some (GConfValue_ieee.float v) => (v, g1)
  | _ => (gdouble.finite 0, g1)

/-- Source: `get_band_value` (lines 73-90), on a store of doubles. -/
def get_band_value_ieee (lo hi : ℚ) (ns : List Char) (band : Int) (g : GConf_ieee) :
    gdouble × GConf_ieee :=
  if ¬ (band ≥ 0 ∧ band < NUM_BANDS) then (gdouble.finite 0, g)
  else
    let g1 := ensure_client_ieee g
    let key := band_key ns band
    let r := gconf_client_get_float_ieee g1 key
    (CLAMP_ieee r.1 (gdouble.finite lo) (gdouble.finite hi), r.2)

/-- A value of the finite model as a value of the store of doubles. -/
def GConfValue.to_ieee : GConfValue → GConfValue_ieee
  | GConfValue.float v => GConfValue_ieee.float (gdouble.finite v)
  | GConfValue.int n => GConfValue_ieee.int n
  | GConfValue.string s => GConfValue_ieee.string s

/-- A state of the finite model as a state with a store of doubles. -/
def GConf.to_ieee (g : GConf) : GConf_ieee :=
  { confclient := g.confclient
    entries := g.entries.map (fun kv => (kv.1, kv.2.to_ieee))
    reads := g.reads }

/-! ## Concrete inputs used to instantiate the theorems -/

/-- A namespace for the examples. -/
def ex_ns : List Char := "/apps/mafw-gst-eq-renderer".toList

/-- A store in which an external writer left `50` for band 3 and a string for
band 4. -/
def ex_gconf : GConf :=
  { confclient := false
    entries := [("/apps/mafw-gst-eq-renderer/band3".toList, GConfValue.float 50),
                ("/apps/mafw-gst-eq-renderer/band4".toList, GConfValue.string "x".toList)]
    reads := [] }

/-- An empty store with no client yet. -/
def ex_gconf0 : GConf := { confclient := false, entries := [], reads := [] }

/-- A `band` element with the given `num` attribute and text. -/
def ex_band (num text : List Char) : xmlNode :=
  xmlNode.mk xmlElementType.XML_ELEMENT_NODE "band".toList [("num".toList, num)]
    [xmlNode.mk xmlElementType.XML_TEXT_NODE "text".toList [] [] text] []

/-- The preset `<equalizer><band num="3">1.5</band><band num="15">2.0</band></equalizer>`. -/
def ex_doc_15 : xmlDoc :=
  { name := "p".toList
    root := some (xmlNode.mk xmlElementType.XML_ELEMENT_NODE "equalizer".toList []
      [ex_band "3".toList "1.5".toList, ex_band "15".toList "2.0".toList] []) }

/-- The preset
`<equalizer><gain num="1">4</gain><band>5</band><band num="x">1.5</band></equalizer>`. -/
def ex_doc_x : xmlDoc :=
  { name := "q".toList
    root := some (xmlNode.mk xmlElementType.XML_ELEMENT_NODE "equalizer".toList []
      [xmlNode.mk xmlElementType.XML_ELEMENT_NODE "gain".toList [("num".toList, "1".toList)]
          [xmlNode.mk xmlElementType.XML_TEXT_NODE "text".toList [] [] "4".toList] [],
        xmlNode.mk xmlElementType.XML_ELEMENT_NODE "band".toList []
          [xmlNode.mk xmlElementType.XML_TEXT_NODE "text".toList [] [] "5".toList] [],
        ex_band "x".toList "1.5".toList] []) }

/-- A dialog whose sliders all stand at `0`. -/
def ex_dialog : Dialog := { slider_band := fun _ => 0, gconf := ex_gconf0 }

/-- A collation for the examples: the byte order of `strcmp`, which is what
`g_utf8_collate` gives in the C locale. -/
def ex_collate : List Char → List Char → Int
  | [], [] => 0
  | [], _ :: _ => -1
  | _ :: _, [] => 1
  | a :: s, b :: t =>
    if a.toNat < b.toNat then -1 else if b.toNat < a.toNat then 1 else ex_collate s t

/-- A preset directory for the examples: every file parses, except `junk`. -/
def ex_read_file (path : List Char) : Option xmlDoc :=
  if path = "/home/user/.presets/junk".toList then none else some ex_doc_15

/-- A notification for the key `<namespace>/band-1`. -/
def ex_entry_neg : GConfEntry :=
  { key := "/apps/mafw-gst-eq-renderer/band-1".toList, value := some (GConfValue.float 1) }

/-- A notification for a key of the namespace that is not a band. -/
def ex_entry_other : GConfEntry :=
  { key := "/apps/mafw-gst-eq-renderer/enabled".toList, value := some (GConfValue.int 1) }

theorem CLAMP_of_mem (x lo hi : ℚ) (h1 : lo ≤ x) (h2 : x ≤ hi) : CLAMP x lo hi = x := by
  unfold CLAMP
  rw [if_neg (not_lt.mpr h2), if_neg (not_lt.mpr h1)]

theorem printf_d_digit (band : Int) (h0 : 0 ≤ band) (h1 : band < 10) :
    printf_d band = [Char.ofNat (48 + band.toNat)] := by
  interval_cases band <;> decide

theorem get_band_value_in_range (lo hi : ℚ) (ns : List Char) (band : Int)
    (h0 : 0 ≤ band) (h1 : band < 10) (g : GConf) :
    get_band_value lo hi ns band g =
      (CLAMP (gconf_client_get_float (ensure_client g) (band_key ns band)).1 lo hi,
        (gconf_client_get_float (ensure_client g) (band_key ns band)).2) := by
  unfold get_band_value
  rw [if_neg]
  simp only [NUM_BANDS, not_not]
  exact ⟨h0, by exact_mod_cast h1⟩

theorem digit_char_props (d : Nat) :
    isdigit (digit_char d) = true ∧ digit_val (digit_char d) = d % 10 ∧
      isspace (digit_char d) = false ∧ digit_char d ≠ '-' ∧ digit_char d ≠ '+' := by
  have h : d % 10 < 10 := Nat.mod_lt _ (by decide)
  unfold digit_char
  generalize d % 10 = k at h
  interval_cases k <;> decide

theorem digits_val_append (xs : List Char) (c : Char) :
    digits_val (xs ++ [c]) = digits_val xs * 10 + digit_val c := by
  simp [digits_val, List.foldl_append]

theorem utoa_go_props (fuel : Nat) : ∀ n : Nat, n < fuel →
    (∀ c ∈ utoa_go fuel n, isdigit c = true) ∧ digits_val (utoa_go fuel n) = n ∧
      utoa_go fuel n ≠ [] := by
  induction fuel with
  | zero => intro n h; omega
  | succ fuel ih =>
    intro n hn
    unfold utoa_go
    by_cases h10 : n < 10
    · rw [if_pos h10]
      have hd := digit_char_props n
      refine ⟨?_, ?_, by simp⟩
      · intro c hc
        rw [List.mem_singleton] at hc
        rw [hc]; exact hd.1
      · simp only [digits_val, List.foldl]
        rw [hd.2.1]; omega
    · rw [if_neg h10]
      have hlt : n / 10 < fuel := by omega
      obtain ⟨hall, hval, _⟩ := ih (n / 10) hlt
      have hd := digit_char_props (n % 10)
      refine ⟨?_, ?_, by simp⟩
      · intro c hc
        rw [List.mem_append, List.mem_singleton] at hc
        rcases hc with hc | hc
        · exact hall c hc
        · rw [hc]; exact hd.1
      · rw [digits_val_append, hval, hd.2.1]; omega

theorem utoa_props (n : Nat) :
    (∀ c ∈ utoa n, isdigit c = true) ∧ digits_val (utoa n) = n ∧ utoa n ≠ [] :=
  utoa_go_props (n + 1) n (Nat.lt_succ_self n)

theorem takeWhile_append_stop {p : Char → Bool} (ds : List Char) (x : Char) (r : List Char)
    (hall : ∀ c ∈ ds, p c = true) (hx : p x = false) :
    (ds ++ x :: r).takeWhile p = ds ∧ (ds ++ x :: r).dropWhile p = x :: r := by
  induction ds with
  | nil => simp [List.takeWhile, List.dropWhile, hx]
  | cons a ds ih =>
    have ha : p a = true := hall a (List.mem_cons_self a ds)
    have ih2 := ih (fun c hc => hall c (List.mem_cons_of_mem a hc))
    simp [List.takeWhile, List.dropWhile, ha, ih2.1, ih2.2]

theorem isdigit_not_space (c : Char) (h : isdigit c = true) :
    isspace c = false ∧ c ≠ '-' ∧ c ≠ '+' ∧ c ≠ '.' := by
  unfold isdigit at h
  rw [decide_eq_true_eq] at h
  refine ⟨?_, ?_, ?_, ?_⟩
  · unfold isspace
    have h1 : c ≠ ' ' := by rintro rfl; revert h; decide
    have h2 : c ≠ '\t' := by rintro rfl; revert h; decide
    have h3 : c ≠ '\n' := by rintro rfl; revert h; decide
    have h4 : c ≠ '\x0b' := by rintro rfl; revert h; decide
    have h5 : c ≠ '\x0c' := by rintro rfl; revert h; decide
    have h6 : c ≠ '\r' := by rintro rfl; revert h; decide
    simp [h1, h2, h3, h4, h5, h6]
  · rintro rfl; revert h; decide
  · rintro rfl; revert h; decide
  · rintro rfl; revert h; decide

theorem scan_sign_digit (c : Char) (r : List Char) (h : isdigit c = true) :
    scan_sign (c :: r) = (false, c :: r) := by
  have hc := isdigit_not_space c h
  unfold scan_sign
  split
  · rename_i heq; cases heq; exact absurd rfl hc.2.1
  · rename_i heq; cases heq; exact absurd rfl hc.2.2.1
  · rfl

theorem round_half_even_nonneg (q : ℚ) (hq : 0 ≤ q) : 0 ≤ round_half_even q := by
  have hf : 0 ≤ ⌊q⌋ := Int.floor_nonneg.mpr hq
  unfold round_half_even
  simp only
  split_ifs <;> omega

theorem round_half_even_near (q : ℚ) : |(round_half_even q : ℚ) - q| ≤ 1 / 2 := by
  have h1 : (⌊q⌋ : ℚ) ≤ q := Int.floor_le q
  have h2 : q < (⌊q⌋ : ℚ) + 1 := Int.lt_floor_add_one q
  unfold round_half_even
  simp only
  rw [abs_le]
  split_ifs with a b c
  · constructor <;> linarith
  · push_cast; constructor <;> linarith
  · constructor <;> linarith
  · push_cast; constructor <;> linarith

theorem round1_near (x : ℚ) : |round1 x - x| ≤ 1 / 20 := by
  have h := round_half_even_near (|x| * 10)
  rw [abs_le] at h ⊢
  unfold round1
  by_cases hx : x < 0
  · rw [if_pos hx]
    rw [abs_of_neg hx] at h ⊢
    constructor <;> linarith [h.1, h.2]
  · rw [if_neg hx]
    rw [abs_of_nonneg (not_lt.mp hx)] at h ⊢
    constructor <;> linarith [h.1, h.2]

theorem printf_1f_ne_nil (x : ℚ) : printf_1f x ≠ [] := by
  unfold printf_1f
  simp

theorem atof_digits (neg : Bool) (i d : Nat) :
    atof ((if neg then ['-'] else []) ++ utoa i ++ ['.', digit_char d]) =
      if neg then -(((i * 10 + d % 10 : Nat) : ℚ) / 10) else ((i * 10 + d % 10 : Nat) : ℚ) / 10 := by
  obtain ⟨hall, hval, hne⟩ := utoa_props i
  obtain ⟨hd1, hd2, _⟩ := digit_char_props d
  obtain ⟨a, l, hal⟩ := List.exists_cons_of_ne_nil hne
  have ha : isdigit a = true := hall a (by rw [hal]; exact List.mem_cons_self a l)
  have hsp := isdigit_not_space a ha
  have hdot : isdigit '.' = false := by decide
  have htw := takeWhile_append_stop (utoa i) '.' [digit_char d] hall hdot
  have hfrac : [digit_char d].takeWhile isdigit = [digit_char d] ∧
      [digit_char d].dropWhile isdigit = [] := by
    simp [List.takeWhile, List.dropWhile, hd1]
  have hbody : ∀ s1 : List Char, s1 = utoa i ++ ['.', digit_char d] →
      (digits_val (s1.takeWhile isdigit ++
          (match s1.dropWhile isdigit with
            | '.' :: r => r.takeWhile isdigit
            | _ => [])) : ℚ) /
        (10 : ℚ) ^ (match s1.dropWhile isdigit with
            | '.' :: r => r.takeWhile isdigit
            | _ => []).length *
        (10 : ℚ) ^ (if s1.takeWhile isdigit = [] ∧
            (match s1.dropWhile isdigit with
              | '.' :: r => r.takeWhile isdigit
              | _ => []) = [] then (0 : Int)
          else scan_exponent (match s1.dropWhile isdigit with
            | '.' :: r => r.dropWhile isdigit
            | _ => s1.dropWhile isdigit)) = ((i * 10 + d % 10 : Nat) : ℚ) / 10 := by
    intro s1 hs1
    rw [hs1, htw.1, htw.2]
    simp only [hfrac.1, hfrac.2, digits_val_append, hval, hd2, List.length_singleton, pow_one]
    simp [scan_exponent]
  cases neg with
  | true =>
    simp only [if_true]
    unfold atof
    have hdw : (['-'] ++ utoa i ++ ['.', digit_char d]).dropWhile isspace =
        '-' :: (utoa i ++ ['.', digit_char d]) := by
      simp [List.dropWhile, isspace]
    simp only [hdw, scan_sign, if_true]
    rw [hbody _ rfl]
  | false =>
    simp only [Bool.false_eq_true, if_false, List.nil_append]
    unfold atof
    have hdw : (utoa i ++ ['.', digit_char d]).dropWhile isspace =
        utoa i ++ ['.', digit_char d] := by
      rw [hal]
      simp [List.dropWhile, hsp.1]
    have hsg : scan_sign (utoa i ++ ['.', digit_char d]) =
        (false, utoa i ++ ['.', digit_char d]) := by
      rw [hal]
      exact scan_sign_digit a _ ha
    simp only [hdw, hsg, Bool.false_eq_true, if_false]
    rw [hbody _ rfl]

theorem atof_printf_1f (x : ℚ) : atof (printf_1f x) = round1 x := by
  have hnn : 0 ≤ round_half_even (|x| * 10) :=
    round_half_even_nonneg _ (mul_nonneg (abs_nonneg x) (by norm_num))
  have hcast : (((round_half_even (|x| * 10)).toNat / 10 * 10 +
      (round_half_even (|x| * 10)).toNat % 10 % 10 : Nat) : ℚ) =
      (round_half_even (|x| * 10) : ℚ) := by
    have h1 : (round_half_even (|x| * 10)).toNat / 10 * 10 +
        (round_half_even (|x| * 10)).toNat % 10 % 10 = (round_half_even (|x| * 10)).toNat := by
      omega
    rw [h1]
    have h2 : ((round_half_even (|x| * 10)).toNat : Int) = round_half_even (|x| * 10) :=
      Int.toNat_of_nonneg hnn
    exact_mod_cast congrArg (fun z : Int => (z : ℚ)) h2
  have h := atof_digits (decide (x < 0)) ((round_half_even (|x| * 10)).toNat / 10)
    ((round_half_even (|x| * 10)).toNat % 10)
  rw [hcast] at h
  unfold printf_1f round1
  simp only [decide_eq_true_eq] at h
  exact h

theorem preset_load_nodes_eq (ns : List Char) : ∀ (nodes : List xmlNode) (g : GConf),
    preset_load_nodes ns nodes g =
      { g with entries := (nodes.filterMap (fun n =>
          if n.name = XML_NODE_BAND then
            (xmlGetProp n XML_PROP_BAND_NUMBER).map (fun num =>
              (ns ++ "/band".toList ++ num, GConfValue.float (atof (xmlNodeGetContent n))))
          else none)).reverse ++ g.entries } := by
  intro nodes
  induction nodes with
  | nil => intro g; simp [preset_load_nodes]
  | cons n rest ih =>
    intro g
    unfold preset_load_nodes
    by_cases hn : n.name = XML_NODE_BAND
    · rw [if_pos hn]
      cases hp : xmlGetProp n XML_PROP_BAND_NUMBER with
      | none =>
        simp only [ih]
        simp [List.filterMap_cons, hn, hp]
      | some num =>
        simp only [ih]
        simp [List.filterMap_cons, hn, hp, gconf_client_set_float]
    · rw [if_neg hn, ih]
      simp [List.filterMap_cons, hn]

theorem preset_save_band_eq (sl : Sliders) (t : xmlElementType) (nm : List Char)
    (p : List (List Char × List Char)) (c : List xmlNode) (x : List Char) (i : Fin NUM_BANDS) :
    preset_save_band sl (xmlNode.mk t nm p c x) i =
      xmlNode.mk t nm p (c ++ [xmlNode.mk xmlElementType.XML_ELEMENT_NODE XML_NODE_BAND
        [(XML_PROP_BAND_NUMBER, [Char.ofNat (48 + i.val)])]
        [xmlNode.mk xmlElementType.XML_TEXT_NODE "text".toList [] [] (printf_1f (sl i))] []]) x := by
  have hd : printf_d (i.val : Int) = [Char.ofNat (48 + i.val)] := by
    have h := printf_d_digit (i.val : Int) (by omega) (by have := i.isLt; unfold NUM_BANDS at this; omega)
    simpa using h
  simp [preset_save_band, xmlAddChild, xmlSetProp, xmlNewDocNode, set_property,
    printf_1f_ne_nil, hd]

theorem preset_save_fold (sl : Sliders) : ∀ (l : List (Fin NUM_BANDS)) (t : xmlElementType)
    (nm : List Char) (p : List (List Char × List Char)) (c : List xmlNode) (x : List Char),
    l.foldl (preset_save_band sl) (xmlNode.mk t nm p c x) =
      xmlNode.mk t nm p (c ++ l.map (fun i =>
        xmlNode.mk xmlElementType.XML_ELEMENT_NODE XML_NODE_BAND
          [(XML_PROP_BAND_NUMBER, [Char.ofNat (48 + i.val)])]
          [xmlNode.mk xmlElementType.XML_TEXT_NODE "text".toList [] [] (printf_1f (sl i))] [])) x := by
  intro l
  induction l with
  | nil => intro t nm p c x; simp
  | cons i l ih =>
    intro t nm p c x
    rw [List.foldl_cons, preset_save_band_eq, ih]
    simp

theorem preset_save_root (preset : xmlDoc) (sl : Sliders) :
    (preset_save preset sl).1.root =
      some (xmlNode.mk xmlElementType.XML_ELEMENT_NODE XML_NODE_EQUALIZER []
        ((List.finRange NUM_BANDS).map (fun i =>
          xmlNode.mk xmlElementType.XML_ELEMENT_NODE XML_NODE_BAND
            [(XML_PROP_BAND_NUMBER, [Char.ofNat (48 + i.val)])]
            [xmlNode.mk xmlElementType.XML_TEXT_NODE "text".toList [] [] (printf_1f (sl i))] []))
        []) := by
  simp only [preset_save, xmlNewDocNode, if_true]
  rw [preset_save_fold]
  simp

theorem printf_1f_shape (x : ℚ) :
    ∃ (ds : List Char) (d : Char),
      printf_1f x = (if x < 0 then ['-'] else []) ++ ds ++ ['.', d] ∧ ds ≠ [] ∧
      (∀ c ∈ ds, isdigit c = true) ∧ isdigit d = true ∧
      (digits_val ds : ℚ) + (digit_val d : ℚ) / 10 = |round1 x| := by
  have hnn : 0 ≤ round_half_even (|x| * 10) :=
    round_half_even_nonneg _ (mul_nonneg (abs_nonneg x) (by norm_num))
  obtain ⟨hall, hval, hne⟩ := utoa_props ((round_half_even (|x| * 10)).toNat / 10)
  obtain ⟨hd1, hd2, _⟩ := digit_char_props ((round_half_even (|x| * 10)).toNat % 10)
  refine ⟨utoa ((round_half_even (|x| * 10)).toNat / 10),
    digit_char ((round_half_even (|x| * 10)).toNat % 10), rfl, hne, hall, hd1, ?_⟩
  rw [hval, hd2]
  have h2 : ((round_half_even (|x| * 10)).toNat : Int) = round_half_even (|x| * 10) :=
    Int.toNat_of_nonneg hnn
  have h3 : (((round_half_even (|x| * 10)).toNat : Nat) : ℚ) =
      (round_half_even (|x| * 10) : ℚ) := by
    exact_mod_cast congrArg (fun z : Int => (z : ℚ)) h2
  have h4 : (((round_half_even (|x| * 10)).toNat / 10 : Nat) : ℚ) * 10 +
      (((round_half_even (|x| * 10)).toNat % 10 % 10 : Nat) : ℚ) =
      (((round_half_even (|x| * 10)).toNat : Nat) : ℚ) := by
    have h5 : (round_half_even (|x| * 10)).toNat / 10 * 10 +
        (round_half_even (|x| * 10)).toNat % 10 % 10 = (round_half_even (|x| * 10)).toNat := by
      omega
    exact_mod_cast congrArg (fun z : Nat => (z : ℚ)) h5
  have hr : |round1 x| = (round_half_even (|x| * 10) : ℚ) / 10 := by
    have hq : (0 : ℚ) ≤ (round_half_even (|x| * 10) : ℚ) / 10 := by
      have : (0 : ℚ) ≤ (round_half_even (|x| * 10) : ℚ) := by exact_mod_cast hnn
      positivity
    unfold round1
    split_ifs
    · rw [abs_neg, abs_of_nonneg hq]
    · rw [abs_of_nonneg hq]
  rw [hr, ← h3, ← h4]
  ring

theorem g_list_sort_merge_nil_right {α : Type} (cmp : α → α → Int) (l : List α) :
    g_list_sort_merge cmp l [] = l := by
  cases l <;> rfl

theorem g_list_sort_merge_cons_cons {α : Type} (cmp : α → α → Int) (a b : α) (l1 l2 : List α) :
    g_list_sort_merge cmp (a :: l1) (b :: l2) =
      if cmp a b ≤ 0 then a :: g_list_sort_merge cmp l1 (b :: l2)
      else b :: g_list_sort_merge cmp (a :: l1) l2 := by
  simp only [g_list_sort_merge, g_list_sort_merge_aux]

theorem g_list_sort_merge_perm {α : Type} (cmp : α → α → Int) :
    ∀ l1 l2 : List α, (g_list_sort_merge cmp l1 l2).Perm (l1 ++ l2) := by
  intro l1
  induction l1 with
  | nil => intro l2; exact List.Perm.refl _
  | cons a l1 ih =>
    intro l2
    induction l2 with
    | nil => rw [g_list_sort_merge_nil_right, List.append_nil]
    | cons b l2 ih2 =>
      rw [g_list_sort_merge_cons_cons]
      split_ifs
      · exact (ih (b :: l2)).cons a
      · exact (ih2.cons b).trans List.perm_middle.symm

theorem g_list_sort_merge_sorted {α : Type} (cmp : α → α → Int)
    (htrans : ∀ a b c, cmp a b ≤ 0 → cmp b c ≤ 0 → cmp a c ≤ 0)
    (htotal : ∀ a b, cmp a b ≤ 0 ∨ cmp b a ≤ 0) :
    ∀ l1 l2 : List α, l1.Pairwise (fun a b => cmp a b ≤ 0) →
      l2.Pairwise (fun a b => cmp a b ≤ 0) →
      (g_list_sort_merge cmp l1 l2).Pairwise (fun a b => cmp a b ≤ 0) := by
  intro l1
  induction l1 with
  | nil => intro l2 _ h2; exact h2
  | cons a l1 ih =>
    intro l2
    induction l2 with
    | nil => intro h1 _; rw [g_list_sort_merge_nil_right]; exact h1
    | cons b l2 ih2 =>
      intro h1 h2
      rw [g_list_sort_merge_cons_cons]
      rw [List.pairwise_cons] at h1 h2
      split_ifs with hab
      · rw [List.pairwise_cons]
        refine ⟨?_, ih (b :: l2) h1.2 (List.pairwise_cons.mpr h2)⟩
        intro x hx
        rw [(g_list_sort_merge_perm cmp l1 (b :: l2)).mem_iff, List.mem_append,
          List.mem_cons] at hx
        rcases hx with hx | hx | hx
        · exact h1.1 x hx
        · rw [hx]; exact hab
        · exact htrans a b x hab (h2.1 x hx)
      · have hba : cmp b a ≤ 0 := (htotal a b).resolve_left hab
        rw [List.pairwise_cons]
        refine ⟨?_, ih2 (List.pairwise_cons.mpr h1) h2.2⟩
        intro x hx
        rw [(g_list_sort_merge_perm cmp (a :: l1) l2).mem_iff, List.mem_append,
          List.mem_cons] at hx
        rcases hx with (hx | hx) | hx
        · rw [hx]; exact hba
        · exact htrans b a x hba (h1.1 x hx)
        · exact h2.1 x hx

theorem g_list_sort_real_perm {α : Type} (cmp : α → α → Int) :
    ∀ (fuel : Nat) (l : List α), (g_list_sort_real cmp fuel l).Perm l := by
  intro fuel
  induction fuel with
  | zero => intro l; exact List.Perm.refl _
  | succ fuel ih =>
    intro l
    match l with
    | [] => exact List.Perm.refl _
    | [a] => exact List.Perm.refl _
    | a :: b :: rest =>
      simp only [g_list_sort_real]
      refine (g_list_sort_merge_perm cmp _ _).trans ?_
      refine ((ih _).append (ih _)).trans ?_
      rw [List.take_append_drop]

theorem g_list_sort_real_sorted {α : Type} (cmp : α → α → Int)
    (htrans : ∀ a b c, cmp a b ≤ 0 → cmp b c ≤ 0 → cmp a c ≤ 0)
    (htotal : ∀ a b, cmp a b ≤ 0 ∨ cmp b a ≤ 0) :
    ∀ (fuel : Nat) (l : List α), l.length ≤ fuel →
      (g_list_sort_real cmp fuel l).Pairwise (fun a b => cmp a b ≤ 0) := by
  intro fuel
  induction fuel with
  | zero =>
    intro l hl
    have : l = [] := List.length_eq_zero.mp (Nat.le_zero.mp hl)
    rw [this]
    exact List.Pairwise.nil
  | succ fuel ih =>
    intro l hl
    match l, hl with
    | [], _ => exact List.Pairwise.nil
    | [a], _ => exact List.pairwise_singleton _ a
    | a :: b :: rest, hl =>
      simp only [g_list_sort_real]
      simp only [List.length_cons] at hl
      apply g_list_sort_merge_sorted cmp htrans htotal
      · apply ih
        rw [List.length_take]
        simp only [List.length_cons]
        omega
      · apply ih
        rw [List.length_drop]
        simp only [List.length_cons]
        omega

theorem presets_preload_loop_eq (xmlReadFile : List Char → Option xmlDoc) :
    ∀ (names : List (List Char)) (acc : List xmlDoc),
      presets_preload_loop xmlReadFile names acc =
        (names.filterMap (fun nm =>
          (xmlReadFile (PRESETS_PATH ++ "/".toList ++ nm)).map
            (fun d => { d with name := nm }))).reverse ++ acc := by
  intro names
  induction names with
  | nil => intro acc; simp [presets_preload_loop]
  | cons nm rest ih =>
    intro acc
    unfold presets_preload_loop
    cases h : xmlReadFile (PRESETS_PATH ++ "/".toList ++ nm) with
    | none => simp only [ih, List.filterMap_cons, h, Option.map_none']
    | some d =>
      simp only [ih, List.filterMap_cons, h, Option.map_some']
      rw [List.reverse_cons, List.append_assoc, List.singleton_append]

theorem ex_collate_total : ∀ a b : List Char, ex_collate a b ≤ 0 ∨ ex_collate b a ≤ 0 := by
  intro a
  induction a with
  | nil => intro b; cases b <;> simp [ex_collate]
  | cons x s ih =>
    intro b
    cases b with
    | nil => simp [ex_collate]
    | cons y t =>
      simp only [ex_collate]
      split_ifs <;> first | omega | exact ih t

theorem ex_collate_trans : ∀ a b c : List Char,
    ex_collate a b ≤ 0 → ex_collate b c ≤ 0 → ex_collate a c ≤ 0 := by
  intro a
  induction a with
  | nil => intro b c _ _; cases c <;> simp [ex_collate]
  | cons x s ih =>
    intro b c h1 h2
    cases b with
    | nil => simp [ex_collate] at h1
    | cons y t =>
      cases c with
      | nil => simp [ex_collate] at h2
      | cons z u =>
        simp only [ex_collate] at h1 h2 ⊢
        split_ifs at h1 h2 ⊢ <;> first | omega | exact ih t u h1 h2

theorem choose_selected_none_name (collate : List Char → List Char → Int) :
    ∀ (l : List xmlDoc) (acc : Option xmlDoc), choose_selected collate none l acc = acc := by
  intro l
  induction l with
  | nil => intro acc; rfl
  | cons p l ih => intro acc; simp only [choose_selected]; exact ih acc

theorem choose_selected_no_match (collate : List Char → List Char → Int) (nm : List Char) :
    ∀ (l : List xmlDoc) (acc : Option xmlDoc), (∀ p ∈ l, collate p.name nm ≠ 0) →
      choose_selected collate (some nm) l acc = acc := by
  intro l
  induction l with
  | nil => intro acc _; rfl
  | cons p l ih =>
    intro acc h
    simp only [choose_selected]
    rw [if_neg (h p (List.mem_cons_self p l))]
    exact ih acc (fun q hq => h q (List.mem_cons_of_mem p hq))

theorem choose_selected_match (collate : List Char → List Char → Int) (nm : List Char) :
    ∀ (l : List xmlDoc) (acc : Option xmlDoc), (∃ p ∈ l, collate p.name nm = 0) →
      ∃ (l1 : List xmlDoc) (p : xmlDoc) (l2 : List xmlDoc),
        l = l1 ++ p :: l2 ∧ collate p.name nm = 0 ∧ (∀ q ∈ l2, collate q.name nm ≠ 0) ∧
        choose_selected collate (some nm) l acc = some p := by
  intro l
  induction l with
  | nil => intro acc h; obtain ⟨p, hp, _⟩ := h; cases hp
  | cons a l ih =>
    intro acc h
    by_cases hl : ∃ p ∈ l, collate p.name nm = 0
    · have hstep : ∃ acc2, choose_selected collate (some nm) (a :: l) acc =
          choose_selected collate (some nm) l acc2 := by
        simp only [choose_selected]
        split_ifs
        · exact ⟨some a, rfl⟩
        · exact ⟨acc, rfl⟩
      obtain ⟨acc2, hacc2⟩ := hstep
      obtain ⟨l1, p, l2, hsplit, hp, hl2, hres⟩ := ih acc2 hl
      exact ⟨a :: l1, p, l2, by rw [hsplit]; rfl, hp, hl2, by rw [hacc2, hres]⟩
    · have hno : ∀ q ∈ l, collate q.name nm ≠ 0 := fun q hq hq0 => hl ⟨q, hq, hq0⟩
      have ha : collate a.name nm = 0 := by
        obtain ⟨p, hp, hp0⟩ := h
        rcases List.mem_cons.mp hp with hpa | hpl
        · rw [← hpa]; exact hp0
        · exact absurd hp0 (hno p hpl)
      refine ⟨[], a, l, rfl, ha, hno, ?_⟩
      simp only [choose_selected]
      rw [if_pos ha]
      exact choose_selected_no_match collate nm l (some a) hno

theorem update_slider_cb_negative (lo hi : ℚ) (ns : List Char) (garbage : Int)
    (entry : GConfEntry) (d : Dialog) (n : Int)
    (hscan : sscanf_band ns entry.key = some n) (hn : n < 0) :
    update_slider_cb lo hi ns garbage entry d = none := by
  unfold update_slider_cb
  simp only [hscan]
  rw [dif_pos (by unfold NUM_BANDS; omega), dif_neg (by omega)]

theorem update_slider_cb_unscanned (lo hi : ℚ) (ns : List Char) (garbage : Int)
    (entry : GConfEntry) (d : Dialog)
    (hscan : sscanf_band ns entry.key = none) (hn : garbage < 0) :
    update_slider_cb lo hi ns garbage entry d = none := by
  unfold update_slider_cb
  simp only [hscan]
  rw [dif_pos (by unfold NUM_BANDS; omega), dif_neg (by omega)]

theorem CLAMP_ieee_finite (x lo hi : ℚ) :
    CLAMP_ieee (gdouble.finite x) (gdouble.finite lo) (gdouble.finite hi) =
      gdouble.finite (CLAMP x lo hi) := by
  unfold CLAMP_ieee CLAMP
  simp only [gdouble.gt, gdouble.lt, decide_eq_true_eq]
  split_ifs <;> rfl

theorem lookup_to_ieee (key : List Char) : ∀ l : List (List Char × GConfValue),
    (l.map (fun kv => (kv.1, kv.2.to_ieee))).lookup key =
      (l.lookup key).map GConfValue.to_ieee := by
  intro l
  induction l with
  | nil => rfl
  | cons kv l ih =>
    obtain ⟨k, v⟩ := kv
    simp only [List.map_cons, List.lookup]
    cases hk : key == k with
    | true => rfl
    | false => exact ih

theorem get_band_value_ieee_of_finite (lo hi : ℚ) (ns : List Char) (band : Int) (g : GConf) :
    get_band_value_ieee lo hi ns band g.to_ieee =
      (gdouble.finite (get_band_value lo hi ns band g).1,
        (get_band_value lo hi ns band g).2.to_ieee) := by
  unfold get_band_value_ieee get_band_value
  by_cases hb : band ≥ 0 ∧ band < NUM_BANDS
  · rw [if_neg (not_not.mpr hb), if_neg (not_not.mpr hb)]
    simp only [gconf_client_get_float_ieee, gconf_client_get_float, ensure_client_ieee,
      ensure_client, GConf.to_ieee, lookup_to_ieee]
    cases hl : g.entries.lookup (band_key ns band) with
    | none => simp only [Option.map_none', CLAMP_ieee_finite]
    | some v => cases v <;> simp only [Option.map_some', GConfValue.to_ieee, CLAMP_ieee_finite]
  · rw [if_pos hb, if_pos hb]

/-- C2: for a band `b` in `0..9` and a gain `v` in `[EQ_GAIN_MIN, EQ_GAIN_MAX]`,
writing `v` for `b` through `update_band_cb` and then calling
`get_band_value b` returns exactly `v`. -/
theorem update_band_then_get (lo hi : ℚ) (ns : List Char) (b : Int) (v : ℚ)
    (hb : 0 ≤ b ∧ b < 10) (hv : lo ≤ v ∧ v ≤ hi) (g : GConf) :
    (get_band_value lo hi ns b (update_band_cb ns v b g)).1 = v := by
  rw [get_band_value_in_range lo hi ns b hb.1 hb.2]
  simp only [update_band_cb, gconf_client_set_float, gconf_client_get_float, ensure_client,
    List.lookup, beq_self_eq_true]
  exact CLAMP_of_mem v lo hi hv.1 hv.2

/-- Witness of C2: `-7/2` written for band 3 is read back. -/
theorem update_band_then_get_witness :
    (get_band_value (-24) 12 ex_ns 3 (update_band_cb ex_ns (-7 / 2) 3 ex_gconf)).1 = -7 / 2 :=
  update_band_then_get (-24) 12 ex_ns 3 (-7 / 2) (by decide) (by norm_num) ex_gconf

/-- C10: for a band outside `[0,10)`, `get_band_value` returns `0` at once: the
state is unchanged (no key is looked up, the client is not created) and the
result does not depend on the store. -/
theorem get_band_value_out_of_range (lo hi : ℚ) (ns : List Char) (band : Int)
    (hband : band < 0 ∨ 10 ≤ band) (g : GConf) :
    get_band_value lo hi ns band g = (0, g) := by
  unfold get_band_value
  rw [if_pos]
  simp only [NUM_BANDS, not_and, not_lt, ge_iff_le]
  intro h0
  rcases hband with h | h
  · omega
  · exact_mod_cast h

/-- Witness of C10: band 10 and band -1 on a store that holds out-of-range
values. -/
theorem get_band_value_out_of_range_witness :
    get_band_value (-24) 12 ex_ns 10 ex_gconf = (0, ex_gconf) ∧
    get_band_value (-24) 12 ex_ns (-1) ex_gconf = (0, ex_gconf) :=
  ⟨get_band_value_out_of_range (-24) 12 ex_ns 10 (by decide) ex_gconf,
   get_band_value_out_of_range (-24) 12 ex_ns (-1) (by decide) ex_gconf⟩

/-- C3: the document built by `preset_save`, given to `preset_load`, writes
for each `i` in `0..9`, in this order, the key `<namespace>/band<i>` with the
`i`-th slider gain rounded to one decimal place, and writes no other key. -/
theorem preset_save_then_load (ns : List Char) (preset : xmlDoc) (sl : Sliders) (g : GConf) :
    preset_load ns (some (preset_save preset sl).1) g =
      some { confclient := true
             entries := ((List.finRange NUM_BANDS).map (fun i =>
               (ns ++ "/band".toList ++ [Char.ofNat (48 + i.val)],
                 GConfValue.float (round1 (sl i))))).reverse ++ g.entries
             reads := g.reads } ∧
    (∀ i : Fin NUM_BANDS, ns ++ "/band".toList ++ [Char.ofNat (48 + i.val)] = band_key ns i.val ∧
      |round1 (sl i) - sl i| ≤ 1 / 20) := by
  constructor
  · have hroot := preset_save_root preset sl
    unfold preset_load
    simp only [hroot, xmlNode.children, preset_load_nodes_eq, ensure_client]
    simp [List.filterMap_map, Function.comp_def, xmlNode.name, xmlGetProp, xmlNode.type,
      xmlNode.properties, List.lookup, xmlNodeGetContent, subtree_text_list, subtree_text,
      atof_printf_1f, XML_NODE_BAND, XML_PROP_BAND_NUMBER]
    exact congrFun (List.filterMap_eq_map (fun i : Fin NUM_BANDS =>
      (ns ++ ['/', 'b', 'a', 'n', 'd', Char.ofNat (48 + i.val)],
        GConfValue.float (round1 (sl i))))) (List.finRange NUM_BANDS)
  · intro i
    refine ⟨?_, round1_near (sl i)⟩
    have h := printf_d_digit (i.val : Int) (by omega)
      (by have := i.isLt; unfold NUM_BANDS at this; omega)
    simp only [band_key, h, Int.toNat_ofNat]

/-- Counterexample to C4: a preset holding `<band num="15">2.0</band>` makes
`preset_load` write `2` to `<namespace>/band15`, which is the key of none of
the bands `0..9`. -/
theorem preset_load_writes_band15 :
    preset_load ex_ns (some ex_doc_15) ex_gconf0 =
      some { confclient := true
             entries := [("/apps/mafw-gst-eq-renderer/band15".toList, GConfValue.float 2),
                         ("/apps/mafw-gst-eq-renderer/band3".toList, GConfValue.float (3 / 2))]
             reads := [] } ∧
    ∀ i : Fin NUM_BANDS, band_key ex_ns i.val ≠ "/apps/mafw-gst-eq-renderer/band15".toList := by
  decide!

/-- C4, amended: `preset_load` writes exactly one key for each `band` element
that has a `num` attribute, namely `<namespace>/band<num>` with the attribute
taken as it is and no range check; hence the keys written are all among
`<namespace>/band0` .. `<namespace>/band9` when every such attribute is the
decimal form of a band in `[0,10)`. -/
theorem preset_load_keys (ns name : List Char) (root : xmlNode) (g : GConf) :
    ∃ writes : List (List Char × GConfValue),
      preset_load ns (some { name := name, root := some root }) g =
        some { confclient := true, entries := writes ++ g.entries, reads := g.reads } ∧
      (∀ k v, (k, v) ∈ writes ↔ ∃ n ∈ root.children, ∃ num,
          n.name = "band".toList ∧ xmlGetProp n "num".toList = some num ∧
          k = ns ++ "/band".toList ++ num ∧
          v = GConfValue.float (atof (xmlNodeGetContent n))) ∧
      ((∀ n ∈ root.children, ∀ num, n.name = "band".toList →
          xmlGetProp n "num".toList = some num →
          ∃ i : Int, 0 ≤ i ∧ i < 10 ∧ num = printf_d i) →
        ∀ k v, (k, v) ∈ writes → ∃ i : Int, 0 ≤ i ∧ i < 10 ∧ k = band_key ns i) := by
  have hmem : ∀ k v, (k, v) ∈ (root.children.filterMap (fun n =>
        if n.name = XML_NODE_BAND then
          (xmlGetProp n XML_PROP_BAND_NUMBER).map (fun num =>
            (ns ++ "/band".toList ++ num, GConfValue.float (atof (xmlNodeGetContent n))))
        else none)).reverse ↔ ∃ n ∈ root.children, ∃ num,
          n.name = "band".toList ∧ xmlGetProp n "num".toList = some num ∧
          k = ns ++ "/band".toList ++ num ∧
          v = GConfValue.float (atof (xmlNodeGetContent n)) := by
    intro k v
    rw [List.mem_reverse, List.mem_filterMap]
    constructor
    · rintro ⟨n, hn, hnv⟩
      by_cases hb : n.name = XML_NODE_BAND
      · rw [if_pos hb] at hnv
        cases hp : xmlGetProp n XML_PROP_BAND_NUMBER with
        | none => rw [hp] at hnv; cases hnv
        | some num =>
          rw [hp] at hnv
          simp only [Option.map_some', Option.some.injEq, Prod.mk.injEq] at hnv
          exact ⟨n, hn, num, hb, hp, hnv.1.symm, hnv.2.symm⟩
      · rw [if_neg hb] at hnv; cases hnv
    · rintro ⟨n, hn, num, hb, hp, hk, hv⟩
      refine ⟨n, hn, ?_⟩
      have hb2 : n.name = XML_NODE_BAND := hb
      have hp2 : xmlGetProp n XML_PROP_BAND_NUMBER = some num := hp
      rw [if_pos hb2, hp2, hk, hv]
      rfl
  refine ⟨_, ?_, hmem, ?_⟩
  · unfold preset_load
    simp only [preset_load_nodes_eq, ensure_client]
  · intro hall k v hkv
    obtain ⟨n, hn, num, hb, hp, hk, _⟩ := (hmem k v).mp hkv
    obtain ⟨i, h0, h1, hi⟩ := hall n hn num hb hp
    exact ⟨i, h0, h1, by rw [hk, hi]; rfl⟩

/-- C5: a change notification whose key scans to a band number of 10 or more
is ignored by `update_slider_cb`: sliders and store are left as they were. -/
theorem update_slider_cb_ignores_high_band (lo hi : ℚ) (ns : List Char) (garbage : Int)
    (entry : GConfEntry) (d : Dialog) (n : Int)
    (hscan : sscanf_band ns entry.key = some n) (hn : 10 ≤ n) :
    update_slider_cb lo hi ns garbage entry d = some d := by
  unfold update_slider_cb
  simp only [hscan]
  rw [dif_neg]
  simp only [NUM_BANDS, not_lt]
  exact_mod_cast hn

/-- Witness of C5: the key `<namespace>/band15` scans to 15 and the
notification changes nothing. -/
theorem update_slider_cb_ignores_high_band_witness :
    sscanf_band ex_ns "/apps/mafw-gst-eq-renderer/band15".toList = some 15 ∧
    update_slider_cb (-24) 12 ex_ns 0
      { key := "/apps/mafw-gst-eq-renderer/band15".toList, value := some (GConfValue.float 5) }
      ex_dialog = some ex_dialog :=
  ⟨by decide,
   update_slider_cb_ignores_high_band (-24) 12 ex_ns 0
     { key := "/apps/mafw-gst-eq-renderer/band15".toList, value := some (GConfValue.float 5) }
     ex_dialog 15 (by decide) (by decide)⟩

/-- C6: `preset_save` builds a document whose root element is `equalizer` with
exactly 10 children; child `i` is an element `band` whose only attribute is
`num`, the decimal string of `i`, and whose text is the `i`-th gain printed
with one decimal: an optional `-`, integer digits, a point and one digit, of
value the gain rounded to one decimal place. -/
theorem preset_save_document (preset : xmlDoc) (sl : Sliders) :
    ∃ children : List xmlNode,
      (preset_save preset sl).1.root =
        some (xmlNode.mk xmlElementType.XML_ELEMENT_NODE "equalizer".toList [] children []) ∧
      children.length = 10 ∧
      ∀ i : Fin NUM_BANDS, ∃ child : xmlNode,
        children[i.val]? = some child ∧
        child.type = xmlElementType.XML_ELEMENT_NODE ∧
        child.name = "band".toList ∧
        child.properties = [("num".toList, printf_d i.val)] ∧
        printf_d i.val = [Char.ofNat (48 + i.val)] ∧
        xmlNodeGetContent child = printf_1f (sl i) ∧
        ∃ (ds : List Char) (c : Char),
          xmlNodeGetContent child = (if sl i < 0 then ['-'] else []) ++ ds ++ ['.', c] ∧
          ds ≠ [] ∧ (∀ a ∈ ds, isdigit a = true) ∧ isdigit c = true ∧
          (digits_val ds : ℚ) + (digit_val c : ℚ) / 10 = |round1 (sl i)| := by
  refine ⟨_, preset_save_root preset sl, by simp, ?_⟩
  intro i
  have hd : printf_d (i.val : Int) = [Char.ofNat (48 + i.val)] := by
    have h := printf_d_digit (i.val : Int) (by omega)
      (by have := i.isLt; unfold NUM_BANDS at this; omega)
    simpa using h
  have hc : xmlNodeGetContent (xmlNode.mk xmlElementType.XML_ELEMENT_NODE XML_NODE_BAND
      [(XML_PROP_BAND_NUMBER, [Char.ofNat (48 + i.val)])]
      [xmlNode.mk xmlElementType.XML_TEXT_NODE "text".toList [] [] (printf_1f (sl i))] []) =
      printf_1f (sl i) := by
    simp [xmlNodeGetContent, xmlNode.type, xmlNode.children, subtree_text_list, subtree_text]
  refine ⟨xmlNode.mk xmlElementType.XML_ELEMENT_NODE XML_NODE_BAND
      [(XML_PROP_BAND_NUMBER, [Char.ofNat (48 + i.val)])]
      [xmlNode.mk xmlElementType.XML_TEXT_NODE "text".toList [] [] (printf_1f (sl i))] [],
    ?_, rfl, rfl, ?_, hd, hc, ?_⟩
  · rw [List.getElem?_map, List.getElem?_eq_getElem (by simp)]
    simp
  · rw [hd]; rfl
  · rw [hc]
    exact printf_1f_shape (sl i)

/-- C7: whatever the preset directory holds, the list `presets_preload_all`
returns is sorted in non-decreasing order of preset name under the collation
(a transitive and total comparison), and is a permutation of the directory
entries that parse as XML documents, each carrying its file name. -/
theorem presets_preload_all_sorted (collate : List Char → List Char → Int)
    (htrans : ∀ a b c, collate a b ≤ 0 → collate b c ≤ 0 → collate a c ≤ 0)
    (htotal : ∀ a b, collate a b ≤ 0 ∨ collate b a ≤ 0)
    (xmlReadFile : List Char → Option xmlDoc) (names : List (List Char)) :
    (presets_preload_all collate xmlReadFile (some names)).Pairwise
        (fun a b => collate a.name b.name ≤ 0) ∧
    (presets_preload_all collate xmlReadFile (some names)).Perm
        (names.filterMap (fun nm =>
          (xmlReadFile ("/home/user/.presets/".toList ++ nm)).map
            (fun d => { name := nm, root := d.root }))) := by
  have hpath : ∀ nm : List Char,
      PRESETS_PATH ++ "/".toList ++ nm = "/home/user/.presets/".toList ++ nm := by
    intro nm; simp [PRESETS_PATH]
  have hloop := presets_preload_loop_eq xmlReadFile names []
  simp only [hpath, List.append_nil] at hloop
  unfold presets_preload_all
  simp only [hloop]
  split_ifs with hne
  · constructor
    · exact g_list_sort_real_sorted (sort_xmldoc collate)
        (fun a b c => htrans a.name b.name c.name) (fun a b => htotal a.name b.name)
        _ _ (le_refl _)
    · exact (g_list_sort_real_perm (sort_xmldoc collate) _ _).trans (List.reverse_perm _)
  · refine ⟨?_, List.reverse_perm _⟩
    rw [not_not.mp hne]
    exact List.Pairwise.nil

/-- Witness of C7: a directory listing `B`, `junk`, `a`, `C`, where `junk` does
not parse, under the byte order of the C locale. -/
theorem presets_preload_all_sorted_witness :
    (presets_preload_all ex_collate ex_read_file
        (some ["B".toList, "junk".toList, "a".toList, "C".toList])).map xmlDoc.name =
      ["B".toList, "C".toList, "a".toList] ∧
    (presets_preload_all ex_collate ex_read_file
        (some ["B".toList, "junk".toList, "a".toList, "C".toList])).Pairwise
      (fun a b => ex_collate a.name b.name ≤ 0) :=
  ⟨by decide,
   (presets_preload_all_sorted ex_collate ex_collate_trans ex_collate_total ex_read_file
     ["B".toList, "junk".toList, "a".toList, "C".toList]).1⟩

/-- Counterexample to C8: the `band` element with `num="x"`, which `%d` cannot
scan, is not skipped: `preset_load` writes its text `1.5` to
`<namespace>/bandx`. -/
theorem preset_load_writes_unparseable_num :
    scan_d "x".toList = none ∧
    preset_load ex_ns (some ex_doc_x) ex_gconf0 =
      some { confclient := true
             entries := [("/apps/mafw-gst-eq-renderer/bandx".toList, GConfValue.float (3 / 2))]
             reads := [] } := by
  decide!

/-- C8, amended: `preset_load` skips every child that is not called `band` and
every `band` element without a `num` attribute; for every other `band`
element, whether `num` is a number or not, it writes the text content parsed
as a float to `<namespace>/band<num>`, in document order. -/
theorem preset_load_skips (ns name : List Char) (root : xmlNode) (g : GConf) :
    preset_load ns (some { name := name, root := some root }) g =
      some { confclient := true
             entries := (root.children.filterMap (fun n =>
               if n.name = "band".toList then
                 (xmlGetProp n "num".toList).map (fun num =>
                   (ns ++ "/band".toList ++ num,
                     GConfValue.float (atof (xmlNodeGetContent n))))
               else none)).reverse ++ g.entries
             reads := g.reads } := by
  unfold preset_load
  simp only [preset_load_nodes_eq, ensure_client]
  rfl

/-- C9: `presets_preload_all` returns the empty list, with no error channel at
all, when the preset directory cannot be opened and when it has no entries. -/
theorem presets_preload_all_absent_or_empty (collate : List Char → List Char → Int)
    (xmlReadFile : List Char → Option xmlDoc) :
    presets_preload_all collate xmlReadFile none = [] ∧
    presets_preload_all collate xmlReadFile (some []) = [] := by
  constructor
  · rfl
  · simp [presets_preload_all, presets_preload_loop]

/-- C11: `dialog_choose_preset` called with `allow_new` pointing to TRUE. When
the picker is cancelled it returns NULL. Otherwise, with a selected name: if
the name collates equal to an existing preset, that preset is returned (the
last such one of the list) and `*allow_new` becomes FALSE; if it matches none,
a fresh empty document carrying the name is returned and `*allow_new` stays
TRUE. -/
theorem dialog_choose_preset_allow_new (collate : List Char → List Char → Int)
    (xmlReadFile : List Char → Option xmlDoc) (dir : Option (List (List Char)))
    (response : Int) (current_text : Option (List Char)) :
    (response = GTK_RESPONSE_DELETE_EVENT →
      dialog_choose_preset collate xmlReadFile dir (some true) response current_text =
        (none, some true)) ∧
    (response ≠ GTK_RESPONSE_DELETE_EVENT → ∀ nm, current_text = some nm →
      ((∃ p ∈ presets_preload_all collate xmlReadFile dir, collate p.name nm = 0) →
        ∃ (l1 : List xmlDoc) (p : xmlDoc) (l2 : List xmlDoc),
          presets_preload_all collate xmlReadFile dir = l1 ++ p :: l2 ∧
          collate p.name nm = 0 ∧ (∀ q ∈ l2, collate q.name nm ≠ 0) ∧
          dialog_choose_preset collate xmlReadFile dir (some true) response current_text =
            (some p, some false)) ∧
      ((∀ p ∈ presets_preload_all collate xmlReadFile dir, collate p.name nm ≠ 0) →
        dialog_choose_preset collate xmlReadFile dir (some true) response current_text =
          (some { name := nm, root := none }, some true))) := by
  refine ⟨?_, ?_⟩
  · intro hresp
    unfold dialog_choose_preset
    simp only [hresp, ne_eq, not_true_eq_false, if_false, and_false, reduceCtorEq]
    rw [choose_selected_none_name]
  · intro hresp nm htext
    refine ⟨?_, ?_⟩
    · intro hex
      obtain ⟨l1, p, l2, hsplit, hp, hl2, hres⟩ :=
        choose_selected_match collate nm _ none hex
      refine ⟨l1, p, l2, hsplit, hp, hl2, ?_⟩
      unfold dialog_choose_preset
      simp only [hresp, htext, ne_eq, not_false_eq_true, if_true, and_false, if_false,
        reduceCtorEq, hres]
    · intro hno
      have hres := choose_selected_no_match collate nm _ none hno
      unfold dialog_choose_preset
      simp only [hresp, htext, ne_eq, not_false_eq_true, if_true, and_false, if_false,
        reduceCtorEq, hres]

/-- Witness of C11: a directory with the presets `B`, `a` and `C`. Choosing `a`
returns the stored preset `a`, choosing `z` a new empty document `z`, and
closing the picker returns NULL. -/
theorem dialog_choose_preset_allow_new_witness :
    dialog_choose_preset ex_collate ex_read_file
        (some ["B".toList, "junk".toList, "a".toList, "C".toList]) (some true) 0
        (some "a".toList) =
      (some { name := "a".toList, root := ex_doc_15.root }, some false) ∧
    dialog_choose_preset ex_collate ex_read_file
        (some ["B".toList, "junk".toList, "a".toList, "C".toList]) (some true) 0
        (some "z".toList) =
      (some { name := "z".toList, root := none }, some true) ∧
    dialog_choose_preset ex_collate ex_read_file
        (some ["B".toList, "junk".toList, "a".toList, "C".toList]) (some true)
        GTK_RESPONSE_DELETE_EVENT (some "a".toList) =
      (none, some true) :=
  ⟨by decide,
   ((dialog_choose_preset_allow_new ex_collate ex_read_file
      (some ["B".toList, "junk".toList, "a".toList, "C".toList]) 0
      (some "z".toList)).2 (by decide) "z".toList rfl).2 (by decide),
   (dialog_choose_preset_allow_new ex_collate ex_read_file
      (some ["B".toList, "junk".toList, "a".toList, "C".toList]) GTK_RESPONSE_DELETE_EVENT
      (some "a".toList)).1 rfl⟩

/-- C13, at the failing inputs: the key `<namespace>/band-1` scans to `-1`, which
passes the test `band_number < NUM_BANDS`, and `slider_band[-1]` is used; the
key `<namespace>/enabled` matches no band, `band_number` keeps whatever it
held, and with a negative value there the array is again indexed outside its
ten elements. -/
theorem update_slider_cb_out_of_bounds :
    sscanf_band ex_ns ex_entry_neg.key = some (-1) ∧
    update_slider_cb (-24) 12 ex_ns 0 ex_entry_neg ex_dialog = none ∧
    sscanf_band ex_ns ex_entry_other.key = none ∧
    update_slider_cb (-24) 12 ex_ns (-7) ex_entry_other ex_dialog = none :=
  ⟨by decide, rfl, by decide, rfl⟩

end MafwEqualizer
